/-
Verification of the GuardMídia client-side data layer (src/types.ts):
media catalog operations (add / delete / update / view increment),
backup / restore of the catalog as a JSON document, the account
directory (register / login), and the catalog view filter.

The embedding is shallow: TypeScript objects become Lean structures,
the parsed JSON document becomes an inductive `Json` tree (the
`JSON.stringify` / `JSON.parse` text step is abstracted away: backup
produces the tree, restore consumes it), and the nondeterministic
environment (`Date.now()`, `Math.random()`, `new Date().toISOString()`)
is passed in explicitly as per-file parameters.
-/
import Mathlib

namespace GuardMidia

/-- `'image' | 'video'` (src/types.ts, `MediaFile.type`). -/
inductive MediaType where
  | image
  | video
deriving DecidableEq

/-- The `MediaFile` interface of src/types.ts.  `size` and `views` are
non-negative integers, `width`/`height` are optional (absent for videos). -/
structure MediaFile where
  id : String
  name : String
  type : MediaType
  mimeType : String
  size : Nat
  dataUrl : String
  category : String
  tags : List String
  uploadDate : String
  views : Nat
  width : Option Nat := none
  height : Option Nat := none
deriving DecidableEq

/-- A parsed JSON value, as produced by `JSON.parse`.  Objects are
association lists of fields (keys unique after parsing). -/
inductive Json where
  | null
  | bool (b : Bool)
  | num (n : Int)
  | str (s : String)
  | arr (items : List Json)
  | obj (fields : List (String × Json))

/-- JavaScript truthiness of a parsed JSON value (`undefined`/`null`,
`false`, `0` and `""` are falsy; arrays and objects are truthy). -/
def Json.truthy : Json → Bool
  | .null => false
  | .bool b => b
  | .num n => n != 0
  | .str s => s != ""
  | .arr _ => true
  | .obj _ => true

/-- JavaScript property read `j[k]` on a parsed JSON value: field lookup on
objects, `undefined` (modelled as `null`, equally falsy) otherwise. -/
def Json.getField : Json → String → Json
  | .obj fields, k => (((fields.find? (fun kv => kv.1 == k)).map (fun kv => kv.2)).getD .null)
  | _, _ => .null

def encodeMediaType : MediaType → Json
  | .image => .str "image"
  | .video => .str "video"

/-- `JSON.stringify` of one `MediaFile` object, as a JSON tree.  Fields
holding `undefined` (`width`/`height` on videos) are omitted. -/
def encodeMediaFile (m : MediaFile) : Json :=
  .obj ([("id", .str m.id), ("name", .str m.name), ("type", encodeMediaType m.type),
         ("mimeType", .str m.mimeType), ("size", .num m.size), ("dataUrl", .str m.dataUrl),
         ("category", .str m.category), ("tags", .arr (m.tags.map .str)),
         ("uploadDate", .str m.uploadDate), ("views", .num m.views)]
        ++ (match m.width with | some w => [("width", Json.num w)] | none => [])
        ++ (match m.height with | some h => [("height", Json.num h)] | none => []))

def decodeMediaType : Json → Option MediaType
  | .str "image" => some .image
  | .str "video" => some .video
  | _ => none

def decodeStr : Json → Option String
  | .str s => some s
  | _ => none

def decodeNat : Json → Option Nat
  | .num n => if n < 0 then none else some n.toNat
  | _ => none

def decodeOptNat : Json → Option (Option Nat)
  | .null => some none
  | .num n => if n < 0 then none else some (some n.toNat)
  | _ => none

def decodeStrList : List Json → Option (List String)
  | [] => some []
  | j :: rest => do
      let s ← decodeStr j
      let srest ← decodeStrList rest
      some (s :: srest)

def decodeTags : Json → Option (List String)
  | .arr xs => decodeStrList xs
  | _ => none

/-- Reading a stored JSON object back as a `MediaFile` value (how the
program consumes the records `restoreData` put into the catalog). -/
def decodeMediaFile (j : Json) : Option MediaFile := do
  let id ← decodeStr (j.getField "id")
  let name ← decodeStr (j.getField "name")
  let ty ← decodeMediaType (j.getField "type")
  let mimeType ← decodeStr (j.getField "mimeType")
  let size ← decodeNat (j.getField "size")
  let dataUrl ← decodeStr (j.getField "dataUrl")
  let category ← decodeStr (j.getField "category")
  let tags ← decodeTags (j.getField "tags")
  let uploadDate ← decodeStr (j.getField "uploadDate")
  let views ← decodeNat (j.getField "views")
  let width ← decodeOptNat (j.getField "width")
  let height ← decodeOptNat (j.getField "height")
  some { id := id, name := name, type := ty, mimeType := mimeType, size := size,
         dataUrl := dataUrl, category := category, tags := tags,
         uploadDate := uploadDate, views := views, width := width, height := height }

/-- Reading a whole stored catalog back as `MediaFile` values. -/
def decodeCatalog : List Json → Option (List MediaFile)
  | [] => some []
  | j :: rest => do
      let m ← decodeMediaFile j
      let ms ← decodeCatalog rest
      some (m :: ms)

/-- `backupData` (src/types.ts): `JSON.stringify(media, null, 2)` — the
catalog serialized as a JSON array of records. -/
def backupData (media : List MediaFile) : Json :=
  .arr (media.map encodeMediaFile)

/-- The per-element check of `restoreData`:
`item.id && item.name && item.dataUrl` (JavaScript truthiness). -/
def validBackupItem (j : Json) : Bool :=
  (j.getField "id").truthy && (j.getField "name").truthy && (j.getField "dataUrl").truthy

/-- `restoreData` (src/types.ts), applied to the already-parsed document:
if the document is an array whose every element passes `validBackupItem`,
the catalog is replaced by the parsed array (`setMedia(restoredMedia)`) and
the call succeeds; otherwise the catalog is left unchanged and the call
fails (`InvalidBackupFormat` toast).  The catalog state is kept at the
JSON level, exactly as `restoreData` stores the raw parsed values. -/
def restoreData (doc : Json) (current : List Json) : List Json × Bool :=
  match doc with
  | .arr items => if items.all validBackupItem then (items, true) else (current, false)
  | _ => (current, false)

/-! ### Account directory (AuthProvider, src/types.ts)

`users` is the `Record<string, string>` stored under the `users` key,
modelled as an association list (keys unique by construction). -/

/-- JavaScript property read `users[u]`. -/
def lookupUser (users : List (String × String)) (u : String) : Option String :=
  (users.find? (fun kv => kv.1 == u)).map (fun kv => kv.2)

/-- The object spread `{ ...prev, [username]: password }`: replaces the
value in place if the key exists, otherwise appends the new key. -/
def setUser (users : List (String × String)) (u p : String) : List (String × String) :=
  if users.any (fun kv => kv.1 == u) then
    users.map (fun kv => if kv.1 == u then (u, p) else kv)
  else
    users ++ [(u, p)]

/-- `register` (src/types.ts): `if (users[u]) return false` (truthiness),
otherwise store the pair and return `true`. -/
def registerUser (users : List (String × String)) (u p : String) :
    List (String × String) × Bool :=
  match lookupUser users u with
  | some pw => if pw != "" then (users, false) else (setUser users u p, true)
  | none => (setUser users u p, true)

/-- `login` (src/types.ts):
`users[u] && users[u] === p` — stored value truthy and exactly equal. -/
def loginUser (users : List (String × String)) (u p : String) : Bool :=
  match lookupUser users u with
  | some pw => pw != "" && pw == p
  | none => false

/-! ### Media catalog operations (MediaProvider, src/types.ts) -/

/-- The argument element type of `addMedia`:
`Omit<MediaFile, 'id' | 'uploadDate' | 'views'>`. -/
structure NewMediaInput where
  name : String
  type : MediaType
  mimeType : String
  size : Nat
  dataUrl : String
  category : String
  tags : List String
  width : Option Nat := none
  height : Option Nat := none
deriving DecidableEq

/-- Per-file environment values consumed by `addMedia`:
`Date.now()` and `Math.random()` rendered as strings for the id, and
`new Date().toISOString()` for the upload date. -/
structure AddEnv where
  nowMs : String
  rand : String
  isoDate : String
deriving DecidableEq

/-- The template literal of the id generator in `addMedia`. -/
def genId (nowMs rand : String) : String := nowMs ++ "-" ++ rand

/-- The object built for one file inside `addMedia`:
the input's fields plus the generated `id`, the current `uploadDate`
and `views: 0`. -/
def mkMediaFile (f : NewMediaInput) (idStr uploadDate : String) : MediaFile :=
  { id := idStr, name := f.name, type := f.type, mimeType := f.mimeType,
    size := f.size, dataUrl := f.dataUrl, category := f.category, tags := f.tags,
    uploadDate := uploadDate, views := 0, width := f.width, height := f.height }

/-- `addMedia` (src/types.ts): builds the new records and prepends them:
`setMedia(prev => [...newMediaItems, ...prev])`. -/
def addMedia (files : List (NewMediaInput × AddEnv)) (media : List MediaFile) :
    List MediaFile :=
  (files.map (fun fe => mkMediaFile fe.1 (genId fe.2.nowMs fe.2.rand) fe.2.isoDate)) ++ media

/-- `deleteMedia` (src/types.ts): `prev.filter(item => item.id !== id)`. -/
def deleteMedia (id : String) (media : List MediaFile) : List MediaFile :=
  media.filter (fun item => !(item.id == id))

/-- `Partial<MediaFile>`: every field optionally present.  A `some` in
`width`/`height` is an explicitly supplied value (possibly `undefined`,
hence the inner `Option`). -/
structure MediaUpdate where
  id : Option String := none
  name : Option String := none
  type : Option MediaType := none
  mimeType : Option String := none
  size : Option Nat := none
  dataUrl : Option String := none
  category : Option String := none
  tags : Option (List String) := none
  uploadDate : Option String := none
  views : Option Nat := none
  width : Option (Option Nat) := none
  height : Option (Option Nat) := none
deriving DecidableEq

/-- The object spread `{ ...item, ...updates }`. -/
def applyUpdate (u : MediaUpdate) (m : MediaFile) : MediaFile :=
  { id := u.id.getD m.id, name := u.name.getD m.name, type := u.type.getD m.type,
    mimeType := u.mimeType.getD m.mimeType, size := u.size.getD m.size,
    dataUrl := u.dataUrl.getD m.dataUrl, category := u.category.getD m.category,
    tags := u.tags.getD m.tags, uploadDate := u.uploadDate.getD m.uploadDate,
    views := u.views.getD m.views, width := u.width.getD m.width,
    height := u.height.getD m.height }

/-- `updateMedia` (src/types.ts):
`prev.map(item => item.id === id ? { ...item, ...updates } : item)`. -/
def updateMedia (id : String) (u : MediaUpdate) (media : List MediaFile) :
    List MediaFile :=
  media.map (fun item => if item.id == id then applyUpdate u item else item)

/-- `media.find(m => m.id === id)`. -/
def findMedia (id : String) (media : List MediaFile) : Option MediaFile :=
  media.find? (fun m => m.id == id)

/-- The update object built by `incrementView` (src/types.ts):
`{ views: (media.find(m => m.id === id)?.views || 0) + 1 }`.
`x?.views || 0` is `0` both when the record is absent and when its view
count is `0`, so it is the found record's view count with default `0`. -/
def incViewUpdate (id : String) (media : List MediaFile) : MediaUpdate :=
  { views := some (((findMedia id media).map (fun m => m.views)).getD 0 + 1) }

/-- `incrementView` (src/types.ts): `updateMedia(id, { views: ... + 1 })`. -/
def incrementView (id : String) (media : List MediaFile) : List MediaFile :=
  updateMedia id (incViewUpdate id media) media

/-- One catalog mutation exposed by the media context. -/
inductive CatalogOp where
  | add (files : List (NewMediaInput × AddEnv))
  | del (id : String)
  | upd (id : String) (u : MediaUpdate)
  | incView (id : String)
deriving DecidableEq

def applyOp : CatalogOp → List MediaFile → List MediaFile
  | .add files, media => addMedia files media
  | .del id, media => deleteMedia id media
  | .upd id u, media => updateMedia id u media
  | .incView id, media => incrementView id media

def applyOps (ops : List CatalogOp) (media : List MediaFile) : List MediaFile :=
  ops.foldl (fun m op => applyOp op m) media

def catalogIds (media : List MediaFile) : List String :=
  media.map (fun m => m.id)

/-- The ids `addMedia` generates for a batch. -/
def batchIds (files : List (NewMediaInput × AddEnv)) : List String :=
  files.map (fun fe => genId fe.2.nowMs fe.2.rand)

/-- Environmental assumption on one `add` batch: the generated ids are
pairwise distinct and collide with no id already in the catalog (what the
`Date.now()`/`Math.random()` generator delivers with overwhelming
probability; freshness is not derivable inside the model). -/
def freshIdsOk (files : List (NewMediaInput × AddEnv)) (media : List MediaFile) : Bool :=
  decide (batchIds files).Nodup &&
    (batchIds files).all (fun i => !((catalogIds media).contains i))

/-- Trace of catalog states produced by a sequence of operations,
starting state included. -/
def catalogStates : List CatalogOp → List MediaFile → List (List MediaFile)
  | [], media => [media]
  | op :: rest, media => media :: catalogStates rest (applyOp op media)

/-! ### Catalog view filter (MediaGrid, src/types.ts) -/

/-- JavaScript `hay.includes(needle)`: substring test. -/
def strIncludes (hay needle : String) : Bool :=
  hay.data.tails.any (fun t => needle.data.isPrefixOf t)

/-- The filter body computed in `MediaGrid`'s effect (src/types.ts):
category filter (`'Todos'` sentinel or exact match) AND text filter
(lowercased search term contained in lowercased name, category or any
tag). -/
def filteredMedia (media : List MediaFile) (searchTerm activeCategory : String) :
    List MediaFile :=
  media.filter (fun item =>
    (activeCategory == "Todos" || item.category == activeCategory) &&
      (strIncludes item.name.toLower searchTerm.toLower ||
       strIncludes item.category.toLower searchTerm.toLower ||
       item.tags.any (fun tag => strIncludes tag.toLower searchTerm.toLower)))

/-- Spec-side category filter, from the spec's words: record passes if the
active category is the All sentinel, or its category equals it exactly. -/
def passesCategorySpec (activeCategory : String) (item : MediaFile) : Bool :=
  activeCategory == "Todos" || item.category == activeCategory

/-- Spec-side text filter, from the spec's words: an empty search term
passes every record; otherwise the lowercased term must be a substring of
the lowercased name, of the lowercased category, or of some lowercased
tag. -/
def passesTextSpec (searchTerm : String) (item : MediaFile) : Bool :=
  if searchTerm == "" then true
  else
    strIncludes item.name.toLower searchTerm.toLower ||
    strIncludes item.category.toLower searchTerm.toLower ||
    item.tags.any (fun tag => strIncludes tag.toLower searchTerm.toLower)

/-! ### Constraint predicates for operation sequences

The id generator and the arbitrary `Partial<MediaFile>` accepted by
`updateMedia` make the spec's catalog invariants environment- and
usage-dependent; these Boolean predicates state the side conditions. -/

/-- Side condition for one operation under which id-uniqueness is
preserved: `add` batches carry fresh ids (environmental), and `upd`
payloads do not set the `id` field. -/
def opOk3 : CatalogOp → List MediaFile → Bool
  | .add files, media => freshIdsOk files media
  | .upd _ u, _ => u.id.isNone
  | _, _ => true

def opsOk3 : List CatalogOp → List MediaFile → Bool
  | [], _ => true
  | op :: rest, media => opOk3 op media && opsOk3 rest (applyOp op media)

/-- One-step check used for the view-count/upload-date invariant: if the
record with id `i` is present before and after, its view count has not
decreased and its upload date is unchanged. -/
def stepPreserves (i : String) (s sNext : List MediaFile) : Bool :=
  match findMedia i s, findMedia i sNext with
  | some m, some m2 => decide (m.views ≤ m2.views) && (m2.uploadDate == m.uploadDate)
  | _, _ => true

/-- Side condition for one operation under which view counts are
non-decreasing and upload dates immutable: `add` batches carry fresh ids,
and `upd` payloads do not set `id` or `uploadDate` and do not lower the
`views` of any matched record. -/
def opOk9 : CatalogOp → List MediaFile → Bool
  | .add files, media => freshIdsOk files media
  | .del _, _ => true
  | .upd i u, media =>
      u.id.isNone && u.uploadDate.isNone &&
        (match u.views with
         | none => true
         | some v => media.all (fun m => !(m.id == i) || decide (m.views ≤ v)))
  | .incView _, _ => true

def opsOk9 : List CatalogOp → List MediaFile → Bool
  | [], _ => true
  | op :: rest, media => opOk9 op media && opsOk9 rest (applyOp op media)

/-! ### Sample values used in concrete witnesses and counterexamples -/

def sampleImage : MediaFile :=
  { id := "a", name := "sunset.jpg", type := .image, mimeType := "image/jpeg", size := 3,
    dataUrl := "data:img", category := "Nature", tags := ["beach"],
    uploadDate := "2024-01-01", views := 2, width := some 5, height := some 4 }

def sampleImageV0 : MediaFile :=
  { id := "a", name := "sunset.jpg", type := .image, mimeType := "image/jpeg", size := 3,
    dataUrl := "data:img", category := "Nature", tags := ["beach"],
    uploadDate := "2024-01-01", views := 0, width := some 5, height := some 4 }

def sampleVideo : MediaFile :=
  { id := "b", name := "clip.mp4", type := .video, mimeType := "video/mp4", size := 9,
    dataUrl := "data:vid", category := "Sem Categoria", tags := [],
    uploadDate := "2024-01-02", views := 1 }

def sampleInput : NewMediaInput :=
  { name := "pic.png", type := .image, mimeType := "image/png", size := 4,
    dataUrl := "data:p", category := "Sem Categoria", tags := ["IA Desativada"],
    width := some 2, height := some 2 }

def sampleBatch : List (NewMediaInput × AddEnv) :=
  [(sampleInput, { nowMs := "1700", rand := "0.1", isoDate := "2024-01-03" }),
   (sampleInput, { nowMs := "1700", rand := "0.2", isoDate := "2024-01-03" })]

/-- A backup element with `name` and `dataUrl` but no `id` field. -/
def itemNoId : Json := Json.obj [("name", Json.str "x"), ("dataUrl", Json.str "y")]

/-- A backup element with a truthy `id` but an empty `name`. -/
def itemEmptyName : Json :=
  Json.obj [("id", Json.str "x"), ("name", Json.str ""), ("dataUrl", Json.str "y")]

/-! ### Helper lemmas -/

theorem toLower_empty : "".toLower = "" := by
  rw [String.toLower, String.map_eq]
  rfl

theorem natCast_lt_zero_false (n : Nat) : ((n : Int) < 0) = False := by simp

theorem decodeStrList_str (ts : List String) : decodeStrList (ts.map Json.str) = some ts := by
  induction ts with
  | nil => rfl
  | cons t rest ih => simp [decodeStrList, decodeStr, ih]

theorem decode_encode (m : MediaFile) :
    decodeMediaFile (encodeMediaFile m) = some m := by
  obtain ⟨id, name, ty, mimeType, size, dataUrl, category, tags, uploadDate, views,
    width, height⟩ := m
  cases ty <;> cases width <;> cases height <;>
    simp [decodeMediaFile, encodeMediaFile, Json.getField, decodeStr, decodeNat,
      decodeOptNat, decodeTags, decodeMediaType, encodeMediaType, natCast_lt_zero_false,
      decodeStrList_str]

theorem decodeCatalog_encode (cat : List MediaFile) :
    decodeCatalog (cat.map encodeMediaFile) = some cat := by
  induction cat with
  | nil => rfl
  | cons m rest ih => simp [decodeCatalog, decode_encode, ih]

theorem validBackupItem_encode (m : MediaFile)
    (h1 : m.id ≠ "") (h2 : m.name ≠ "") (h3 : m.dataUrl ≠ "") :
    validBackupItem (encodeMediaFile m) = true := by
  simp [validBackupItem, encodeMediaFile, Json.getField, Json.truthy, h1, h2, h3]

theorem setUser_keys (users : List (String × String)) (u p : String) :
    (setUser users u p).map Prod.fst =
      if users.any (fun kv => kv.1 == u) then users.map Prod.fst
      else users.map Prod.fst ++ [u] := by
  unfold setUser
  split
  · rw [List.map_map]
    apply List.map_congr_left
    intro kv _
    by_cases h : kv.1 = u
    · simp [h]
    · simp [h]
  · simp

theorem strIncludes_empty_needle (hay : String) : strIncludes hay "" = true := by
  unfold strIncludes
  cases hd : hay.data with
  | nil => rfl
  | cons a t => rfl

theorem findMedia_map_preserving (i : String) (media : List MediaFile)
    (g : MediaFile → MediaFile) (hg : ∀ m, (g m).id = m.id) :
    findMedia i (media.map g) = (findMedia i media).map g := by
  induction media with
  | nil => rfl
  | cons m rest ih =>
      unfold findMedia at ih ⊢
      rw [List.map_cons, List.find?_cons, List.find?_cons, hg]
      by_cases h : m.id == i
      · simp [h]
      · simp only [Bool.not_eq_true] at h
        rw [h]
        exact ih

theorem incrementView_step (i : String) (s : List MediaFile) (m : MediaFile)
    (hfind : findMedia i s = some m) :
    findMedia i (incrementView i s) = some { m with views := m.views + 1 } := by
  unfold incrementView updateMedia
  rw [findMedia_map_preserving i s _ (fun x => by
    by_cases h : x.id == i <;> simp [h, applyUpdate, incViewUpdate])]
  have hp : m.id = i := by
    have h2 := hfind
    unfold findMedia at h2
    simpa using List.find?_some h2
  rw [hfind]
  simp [hp, applyUpdate, incViewUpdate, hfind]

theorem incrementView_iterate (i : String) (media : List MediaFile) (m : MediaFile)
    (hfind : findMedia i media = some m) (n : Nat) :
    findMedia i ((incrementView i)^[n] media) = some { m with views := m.views + n } := by
  induction n generalizing media m with
  | zero => simpa using hfind
  | succ k ih =>
      rw [Function.iterate_succ_apply]
      have hstep := incrementView_step i media m hfind
      have h2 := ih (incrementView i media) { m with views := m.views + 1 } hstep
      rw [h2]
      have hv : m.views + 1 + k = m.views + (k + 1) := by omega
      rw [hv]

theorem genId_inj_right (t r1 r2 : String) (h : genId t r1 = genId t r2) : r1 = r2 := by
  unfold genId at h
  have hd : (t ++ "-" ++ r1).data = (t ++ "-" ++ r2).data := congrArg String.data h
  simp only [String.data_append] at hd
  exact String.ext (List.append_cancel_left hd)

theorem batchIds_same_instant (files : List (NewMediaInput × AddEnv)) (t : String)
    (hsame : ∀ fe ∈ files, (fe : NewMediaInput × AddEnv).2.nowMs = t)
    (hrand : (files.map (fun fe => fe.2.rand)).Nodup) :
    (batchIds files).Nodup := by
  have h : batchIds files = (files.map (fun fe => fe.2.rand)).map (fun r => genId t r) := by
    unfold batchIds
    rw [List.map_map]
    apply List.map_congr_left
    intro fe hfe
    simp [hsame fe hfe]
  rw [h]
  exact hrand.map (fun r1 r2 hr => genId_inj_right t r1 r2 hr)

theorem catalogIds_addMedia (files : List (NewMediaInput × AddEnv))
    (media : List MediaFile) :
    catalogIds (addMedia files media) = batchIds files ++ catalogIds media := by
  unfold catalogIds addMedia batchIds
  rw [List.map_append, List.map_map]
  rfl

theorem catalogIds_updateMedia (i : String) (u : MediaUpdate) (media : List MediaFile)
    (h : u.id = none) :
    catalogIds (updateMedia i u media) = catalogIds media := by
  unfold catalogIds updateMedia
  rw [List.map_map]
  apply List.map_congr_left
  intro m _
  by_cases hm : m.id = i <;> simp [hm, applyUpdate, h]

theorem catalogIds_incrementView (i : String) (media : List MediaFile) :
    catalogIds (incrementView i media) = catalogIds media := by
  unfold incrementView
  exact catalogIds_updateMedia i _ media rfl

theorem freshIdsOk_elim (files : List (NewMediaInput × AddEnv)) (media : List MediaFile)
    (h : freshIdsOk files media = true) :
    (batchIds files).Nodup ∧ ∀ i ∈ batchIds files, i ∉ catalogIds media := by
  unfold freshIdsOk at h
  rw [Bool.and_eq_true] at h
  obtain ⟨h1, h2⟩ := h
  refine ⟨of_decide_eq_true h1, ?_⟩
  intro i hi hmem
  rw [List.all_eq_true] at h2
  have h3 := h2 i hi
  rw [Bool.not_eq_eq_eq_not] at h3
  simp only [Bool.not_true] at h3
  rw [List.contains_eq_any_beq, List.any_eq_false] at h3
  have h4 := h3 i hmem
  simp at h4

theorem opOk3_preserves (op : CatalogOp) (media : List MediaFile)
    (h1 : (catalogIds media).Nodup) (h2 : opOk3 op media = true) :
    (catalogIds (applyOp op media)).Nodup := by
  cases op with
  | add files =>
      obtain ⟨hb, hfresh⟩ := freshIdsOk_elim files media h2
      show (catalogIds (addMedia files media)).Nodup
      rw [catalogIds_addMedia, List.nodup_append]
      exact ⟨hb, h1, fun a ha hb2 => hfresh a ha hb2⟩
  | del i =>
      show (catalogIds (deleteMedia i media)).Nodup
      unfold catalogIds deleteMedia
      exact h1.sublist (List.Sublist.map _ (List.filter_sublist media))
  | upd i u =>
      show (catalogIds (updateMedia i u media)).Nodup
      rw [catalogIds_updateMedia i u media (Option.isNone_iff_eq_none.mp h2)]
      exact h1
  | incView i =>
      show (catalogIds (incrementView i media)).Nodup
      rw [catalogIds_incrementView]
      exact h1

theorem stepPreserves_of_find_eq (i : String) (s s2 : List MediaFile)
    (h : findMedia i s2 = findMedia i s) : stepPreserves i s s2 = true := by
  unfold stepPreserves
  rw [h]
  cases findMedia i s <;> simp

theorem stepPreserves_of_none (i : String) (s s2 : List MediaFile)
    (h : findMedia i s2 = none) : stepPreserves i s s2 = true := by
  unfold stepPreserves
  rw [h]
  cases findMedia i s <;> rfl

theorem find?_filter_of_imp (p q : MediaFile → Bool) (l : List MediaFile)
    (h : ∀ x, p x = true → q x = true) :
    (l.filter q).find? p = l.find? p := by
  induction l with
  | nil => rfl
  | cons a rest ih =>
      by_cases hq : q a = true
      · rw [List.filter_cons_of_pos hq]
        cases hp : p a with
        | true => rw [List.find?_cons_of_pos _ hp, List.find?_cons_of_pos _ hp]
        | false =>
            rw [List.find?_cons_of_neg _ (by simp [hp]),
              List.find?_cons_of_neg _ (by simp [hp])]
            exact ih
      · rw [List.filter_cons_of_neg (by simpa using hq)]
        cases hp : p a with
        | true => exact absurd (h a hp) hq
        | false =>
            rw [List.find?_cons_of_neg _ (by simp [hp])]
            exact ih

theorem opOk9_imp_opOk3 (op : CatalogOp) (media : List MediaFile)
    (h : opOk9 op media = true) : opOk3 op media = true := by
  cases op with
  | add files => exact h
  | del i => rfl
  | upd i u =>
      unfold opOk9 at h
      rw [Bool.and_eq_true, Bool.and_eq_true] at h
      exact h.1.1
  | incView i => rfl

theorem opOk9_step (i : String) (op : CatalogOp) (media : List MediaFile)
    (h : opOk9 op media = true) :
    stepPreserves i media (applyOp op media) = true := by
  cases op with
  | add files =>
      obtain ⟨hb, hfresh⟩ := freshIdsOk_elim files media h
      cases hf : findMedia i media with
      | none =>
          unfold stepPreserves
          rw [hf]
      | some m =>
          have hf2 := hf
          unfold findMedia at hf2
          have hpm : m.id = i := by simpa using List.find?_some hf2
          have hmmem : i ∈ catalogIds media := by
            unfold catalogIds
            rw [← hpm]
            exact List.mem_map_of_mem _ (List.mem_of_find?_eq_some hf2)
          apply stepPreserves_of_find_eq
          show findMedia i (addMedia files media) = findMedia i media
          unfold findMedia addMedia
          rw [List.find?_append]
          have hnone : (files.map (fun fe =>
              mkMediaFile fe.1 (genId fe.2.nowMs fe.2.rand) fe.2.isoDate)).find?
                (fun x => x.id == i) = none := by
            rw [List.find?_eq_none]
            intro x hx
            rw [List.mem_map] at hx
            obtain ⟨fe, hfe, rfl⟩ := hx
            have hidmem : genId fe.2.nowMs fe.2.rand ∈ batchIds files :=
              List.mem_map_of_mem _ hfe
            intro hpx
            apply hfresh _ hidmem
            have hxid : genId fe.2.nowMs fe.2.rand = i := by simpa using hpx
            rw [hxid]
            exact hmmem
          rw [hnone, Option.none_or]
  | del d =>
      by_cases hid : i = d
      · subst hid
        apply stepPreserves_of_none
        show findMedia i (deleteMedia i media) = none
        unfold findMedia deleteMedia
        rw [List.find?_eq_none]
        intro x hx
        rw [List.mem_filter] at hx
        intro hpx
        have h2 := hx.2
        rw [hpx] at h2
        exact absurd h2 (by decide)
      · apply stepPreserves_of_find_eq
        show findMedia i (deleteMedia d media) = findMedia i media
        unfold findMedia deleteMedia
        apply find?_filter_of_imp
        intro x hpx
        have hxi : x.id = i := by simpa using hpx
        simp [hxi, hid]
  | upd i2 u =>
      unfold opOk9 at h
      rw [Bool.and_eq_true, Bool.and_eq_true] at h
      obtain ⟨⟨hid, hupl⟩, hviews⟩ := h
      have hidn : u.id = none := Option.isNone_iff_eq_none.mp hid
      have hupn : u.uploadDate = none := Option.isNone_iff_eq_none.mp hupl
      show stepPreserves i media (updateMedia i2 u media) = true
      have hmap : findMedia i (updateMedia i2 u media) =
          (findMedia i media).map
            (fun item => if item.id == i2 then applyUpdate u item else item) := by
        apply findMedia_map_preserving
        intro x
        by_cases hx : x.id = i2 <;> simp [hx, applyUpdate, hidn]
      unfold stepPreserves
      rw [hmap]
      cases hf : findMedia i media with
      | none => rfl
      | some m =>
          have hf2 := hf
          unfold findMedia at hf2
          have hmem : m ∈ media := List.mem_of_find?_eq_some hf2
          simp only [Option.map_some']
          by_cases hx : m.id = i2
          · simp only [hx, beq_self_eq_true, if_true]
            rw [Bool.and_eq_true]
            constructor
            · rw [decide_eq_true_iff]
              cases hv : u.views with
              | none => simp [applyUpdate, hv]
              | some v =>
                  rw [hv] at hviews
                  rw [List.all_eq_true] at hviews
                  have h3 := hviews m hmem
                  simp only [hx, beq_self_eq_true, Bool.not_true, Bool.false_or,
                    decide_eq_true_iff] at h3
                  simpa [applyUpdate, hv] using h3
            · simp [applyUpdate, hupn]
          · simp only [beq_iff_eq, hx, if_false]
            simp
  | incView i2 =>
      show stepPreserves i media (updateMedia i2 (incViewUpdate i2 media) media) = true
      have hmap : findMedia i (updateMedia i2 (incViewUpdate i2 media) media) =
          (findMedia i media).map
            (fun item => if item.id == i2 then applyUpdate (incViewUpdate i2 media) item
              else item) := by
        apply findMedia_map_preserving
        intro x
        by_cases hx : x.id = i2 <;> simp [hx, applyUpdate, incViewUpdate]
      unfold stepPreserves
      rw [hmap]
      cases hf : findMedia i media with
      | none => rfl
      | some m =>
          have hf2 := hf
          unfold findMedia at hf2
          have hpm : m.id = i := by simpa using List.find?_some hf2
          simp only [Option.map_some']
          by_cases hx : m.id = i2
          · have hii : i2 = i := by rw [← hpm, hx]
            subst hii
            simp only [hx, beq_self_eq_true, if_true]
            simp [applyUpdate, incViewUpdate, hf]
          · simp only [beq_iff_eq, hx, if_false]
            simp

theorem catalogStates_head (ops : List CatalogOp) (media : List MediaFile) :
    (catalogStates ops media).head? = some media := by
  cases ops <;> rfl

/-! ### Claim theorems -/

/-- C1: serializing a catalog of well-formed records with `backupData` and
feeding the resulting document to `restoreData` succeeds and yields a
stored catalog that reads back as exactly the original records, in the
original order, whatever the previous catalog contents were. -/
theorem backupRestore_roundtrip (cat : List MediaFile) (cur : List Json)
    (h : ∀ m ∈ cat, m.id ≠ "" ∧ m.name ≠ "" ∧ m.dataUrl ≠ "") :
    (restoreData (backupData cat) cur).2 = true ∧
    decodeCatalog (restoreData (backupData cat) cur).1 = some cat := by
  have hall : (cat.map encodeMediaFile).all validBackupItem = true := by
    rw [List.all_eq_true]
    intro j hj
    rw [List.mem_map] at hj
    obtain ⟨m, hm, rfl⟩ := hj
    exact validBackupItem_encode m (h m hm).1 (h m hm).2.1 (h m hm).2.2
  constructor
  · simp [restoreData, backupData, hall]
  · simp [restoreData, backupData, hall, decodeCatalog_encode]

/-- C1 witness: the round trip at a concrete one-record catalog. -/
theorem backupRestore_roundtrip_witness :
    (restoreData (backupData [sampleImage]) []).2 = true ∧
    decodeCatalog (restoreData (backupData [sampleImage]) []).1 = some [sampleImage] :=
  backupRestore_roundtrip [sampleImage] [] (by decide)

/-- C2: `restoreData` succeeds exactly on documents that are arrays whose
every element passes the id/name/content check, in which case it replaces
the whole catalog with the parsed array; an array containing any element
failing the check — in particular one whose `id` field is absent or falsy
— fails and leaves the catalog unchanged, as does a non-array document;
and for string-valued fields the check is precisely non-emptiness of
`id`, `name` and `dataUrl`. -/
theorem restoreData_validation (doc : Json) (cur : List Json) :
    (∀ items, doc = Json.arr items → (∀ j ∈ items, validBackupItem j = true) →
        restoreData doc cur = (items, true)) ∧
    (∀ items j, doc = Json.arr items → j ∈ items → validBackupItem j = false →
        restoreData doc cur = (cur, false)) ∧
    ((∀ items, doc ≠ Json.arr items) → restoreData doc cur = (cur, false)) ∧
    (∀ j, (j.getField "id").truthy = false → validBackupItem j = false) ∧
    (∀ j i nm d, j.getField "id" = .str i → j.getField "name" = .str nm →
        j.getField "dataUrl" = .str d →
        (validBackupItem j = true ↔ (i ≠ "" ∧ nm ≠ "" ∧ d ≠ ""))) := by
  refine ⟨?_, ?_, ?_, ?_, ?_⟩
  · rintro items rfl hall
    have hb : items.all validBackupItem = true := by rw [List.all_eq_true]; exact hall
    simp [restoreData, hb]
  · rintro items j rfl hj hv
    have hb : items.all validBackupItem = false := by
      rw [List.all_eq_false]
      exact ⟨j, hj, by simp [hv]⟩
    simp [restoreData, hb]
  · intro hne
    cases doc with
    | arr items => exact absurd rfl (hne items)
    | null => rfl
    | bool b => rfl
    | num n => rfl
    | str s => rfl
    | obj f => rfl
  · intro j hid
    unfold validBackupItem
    rw [hid]
    rfl
  · intro j i nm d hi hn hd
    unfold validBackupItem
    rw [hi, hn, hd]
    simp [Json.truthy, and_assoc]

/-- C2 witness: restoring an array whose element lacks `id`, and one whose
element has a truthy `id` but an empty `name`, both fail and preserve the
current catalog. -/
theorem restoreData_validation_witness :
    restoreData (Json.arr [itemNoId]) [Json.num 7] = ([Json.num 7], false) ∧
    restoreData (Json.arr [itemEmptyName]) [Json.num 7] = ([Json.num 7], false) :=
  ⟨(restoreData_validation (Json.arr [itemNoId]) [Json.num 7]).2.1 [itemNoId] itemNoId
      rfl (List.mem_singleton.mpr rfl) rfl,
   (restoreData_validation (Json.arr [itemEmptyName]) [Json.num 7]).2.1 [itemEmptyName]
      itemEmptyName rfl (List.mem_singleton.mpr rfl) rfl⟩

/-- C3 counterexample: `updateMedia` accepts a `Partial<MediaFile>` that
sets `id`, so updating record `"a"` to id `"b"` in a two-record catalog
with distinct ids `"a"`, `"b"` yields a catalog whose ids are no longer
pairwise distinct. -/
theorem update_id_collision_cex :
    (catalogIds [sampleImage, sampleVideo]).Nodup ∧
    ¬ (catalogIds (applyOps [CatalogOp.upd "a" { id := some "b" }]
        [sampleImage, sampleVideo])).Nodup := by
  constructor
  · decide
  · decide

/-- C3 amended: for every starting catalog with pairwise-distinct ids and
every finite operation sequence whose `add` batches carry fresh pairwise
distinct ids and whose `upd` payloads do not set the `id` field, the
resulting catalog's ids remain pairwise distinct. -/
theorem ids_nodup_invariant (ops : List CatalogOp) (media : List MediaFile)
    (h1 : (catalogIds media).Nodup) (h2 : opsOk3 ops media = true) :
    (catalogIds (applyOps ops media)).Nodup := by
  induction ops generalizing media with
  | nil => exact h1
  | cons op rest ih =>
      unfold opsOk3 at h2
      rw [Bool.and_eq_true] at h2
      exact ih (applyOp op media) (opOk3_preserves op media h1 h2.1) h2.2

/-- C3 witness: a concrete delete-then-update sequence on a two-record
catalog keeps the ids pairwise distinct. -/
theorem ids_nodup_invariant_witness :
    (catalogIds (applyOps [CatalogOp.del "a",
        CatalogOp.upd "b" { category := some "Edited" }]
        [sampleImage, sampleVideo])).Nodup :=
  ids_nodup_invariant _ [sampleImage, sampleVideo] (by decide) (by decide)

/-- C4: starting from a catalog whose record with the given id has view
count 0, n sequential `incrementView` calls yield view count n, and every
single call writes exactly the view count it read plus one. -/
theorem incrementView_counts (media : List MediaFile) (i : String) (r : MediaFile)
    (hfind : findMedia i media = some r) (h0 : r.views = 0) (n : Nat) :
    ((findMedia i ((incrementView i)^[n] media)).map (fun m => m.views) = some n) ∧
    (∀ (s : List MediaFile) (m : MediaFile), findMedia i s = some m →
        (findMedia i (incrementView i s)).map (fun x => x.views) = some (m.views + 1)) := by
  constructor
  · rw [incrementView_iterate i media r hfind n]
    simp [h0]
  · intro s m hm
    rw [incrementView_step i s m hm]
    rfl

/-- C4 witness: three increments on a concrete catalog give view count 3. -/
theorem incrementView_counts_witness :
    (findMedia "a" ((incrementView "a")^[3] [sampleImageV0])).map (fun m => m.views) =
      some 3 :=
  (incrementView_counts [sampleImageV0] "a" sampleImageV0 rfl rfl 3).1

/-- C5 counterexample: registering the pair `("a", "")` succeeds and stores
it, yet `login` with that exact registered pair fails, because the login
check `users[u] && users[u] === p` is falsy on the empty stored password. -/
theorem login_empty_password_cex :
    registerUser [] "a" "" = ([("a", "")], true) ∧
    loginUser [("a", "")] "a" "" = false := by
  constructor <;> rfl

/-- C5 amended: `login(u, p)` succeeds iff the directory stores exactly the
pair `(u, p)` (case-sensitive string comparison) and the stored password is
non-empty. -/
theorem login_iff (users : List (String × String)) (u p : String) :
    loginUser users u p = true ↔ (lookupUser users u = some p ∧ p ≠ "") := by
  unfold loginUser
  cases h : lookupUser users u with
  | none => simp
  | some pw =>
      simp only [Bool.and_eq_true, bne_iff_ne, beq_iff_eq, Option.some.injEq, ne_eq]
      constructor
      · rintro ⟨hne, rfl⟩
        exact ⟨rfl, hne⟩
      · rintro ⟨rfl, hne⟩
        exact ⟨hne, rfl⟩

/-- C6 counterexample: after registering `("a", "")`, a second `register`
call for the existing username `"a"` succeeds and overwrites the stored
password, because the duplicate check `if (users[u])` is a truthiness test
that the empty stored password fails. -/
theorem register_overwrite_cex :
    registerUser [] "a" "" = ([("a", "")], true) ∧
    registerUser [("a", "")] "a" "x" = ([("a", "x")], true) := by
  constructor <;> rfl

/-- C6 amended: a second registration for a username whose stored password
is non-empty always fails and leaves the whole directory unchanged, and
registration preserves uniqueness of stored usernames. -/
theorem register_duplicate_spec :
    (∀ (users : List (String × String)) (u p pnew : String),
        lookupUser users u = some p → p ≠ "" → registerUser users u pnew = (users, false)) ∧
    (∀ (users : List (String × String)) (u p : String),
        (users.map Prod.fst).Nodup → ((registerUser users u p).1.map Prod.fst).Nodup) := by
  constructor
  · intro users u p pnew hl hp
    unfold registerUser
    rw [hl]
    simp [hp]
  · intro users u p hnd
    unfold registerUser
    cases h : lookupUser users u with
    | some pw =>
        by_cases hpw : pw != ""
        · simp [hpw]
          exact hnd
        · have hany : users.any (fun kv => kv.1 == u) = true := by
            unfold lookupUser at h
            rw [Option.map_eq_some'] at h
            obtain ⟨kv, hkv, _⟩ := h
            rw [List.any_eq_true]
            refine ⟨kv, List.mem_of_find?_eq_some hkv, ?_⟩
            have h6 := List.find?_some hkv
            simpa using h6
          simp [hpw, setUser_keys, hany]
          exact hnd
    | none =>
        have hany : users.any (fun kv => kv.1 == u) = false := by
          unfold lookupUser at h
          rw [Option.map_eq_none'] at h
          rw [List.find?_eq_none] at h
          rw [List.any_eq_false]
          intro kv hkv
          simpa using h kv hkv
        have hnotmem : u ∉ users.map Prod.fst := by
          intro hmem
          rw [List.mem_map] at hmem
          obtain ⟨kv, hkv, hfst⟩ := hmem
          rw [List.any_eq_false] at hany
          have h5 := hany kv hkv
          simp [hfst] at h5
        simp [setUser_keys, hany]
        rw [List.nodup_append]
        refine ⟨hnd, List.nodup_singleton u, ?_⟩
        intro a ha hb
        rw [List.mem_singleton] at hb
        subst hb
        exact hnotmem ha

/-- C6 witness: a duplicate registration against a non-empty stored
password fails, changes nothing, and keeps usernames unique. -/
theorem register_duplicate_spec_witness :
    registerUser [("a", "x")] "a" "y" = ([("a", "x")], false) ∧
    ((registerUser [("a", "x")] "a" "y").1.map Prod.fst).Nodup :=
  ⟨register_duplicate_spec.1 [("a", "x")] "a" "x" "y" rfl (by decide),
   register_duplicate_spec.2 [("a", "x")] "a" "y" (by decide)⟩

/-- C7: the grid filter equals the spec-side view — exactly the records
passing both the category filter and the text filter (an empty search term
passing everything) — and the view is a sublist of the catalog, so records
keep their relative order. -/
theorem filteredMedia_spec (media : List MediaFile) (s c : String) :
    filteredMedia media s c =
      media.filter (fun item => passesCategorySpec c item && passesTextSpec s item) ∧
    (filteredMedia media s c).Sublist media := by
  constructor
  · unfold filteredMedia
    apply List.filter_congr
    intro item _
    unfold passesCategorySpec passesTextSpec
    by_cases hs : s = ""
    · subst hs
      simp [toLower_empty, strIncludes_empty_needle]
    · simp [hs]
  · exact List.filter_sublist _

/-- C8: an `add` batch whose per-file environment shares one timestamp and
carries pairwise-distinct random components, and whose generated ids avoid
the existing ids, produces pairwise-distinct fresh ids, keeps the whole
catalog's ids pairwise distinct, gives every new record view count 0 and
the environment's current timestamp as upload date, and places all new
records before every pre-existing record. -/
theorem addMedia_spec (files : List (NewMediaInput × AddEnv)) (media : List MediaFile)
    (t : String)
    (hsame : ∀ fe ∈ files, (fe : NewMediaInput × AddEnv).2.nowMs = t)
    (hrand : (files.map (fun fe => fe.2.rand)).Nodup)
    (hfresh : ∀ i ∈ batchIds files, i ∉ catalogIds media)
    (hnodup : (catalogIds media).Nodup) :
    (batchIds files).Nodup ∧
    (catalogIds (addMedia files media)).Nodup ∧
    (∀ m ∈ (addMedia files media).take files.length, m.views = 0) ∧
    ((addMedia files media).take files.length).map (fun m => m.uploadDate) =
      files.map (fun fe => fe.2.isoDate) ∧
    (addMedia files media).drop files.length = media := by
  have hb := batchIds_same_instant files t hsame hrand
  have hlen : (files.map (fun fe =>
      mkMediaFile fe.1 (genId fe.2.nowMs fe.2.rand) fe.2.isoDate)).length = files.length :=
    List.length_map _ _
  have htake : (addMedia files media).take files.length =
      files.map (fun fe => mkMediaFile fe.1 (genId fe.2.nowMs fe.2.rand) fe.2.isoDate) := by
    unfold addMedia
    rw [← hlen, List.take_left]
  refine ⟨hb, ?_, ?_, ?_, ?_⟩
  · rw [catalogIds_addMedia, List.nodup_append]
    exact ⟨hb, hnodup, fun a ha hb2 => hfresh a ha hb2⟩
  · intro m hm
    rw [htake, List.mem_map] at hm
    obtain ⟨fe, _, rfl⟩ := hm
    rfl
  · rw [htake, List.map_map]
    rfl
  · unfold addMedia
    rw [← hlen, List.drop_left]

/-- C8 witness: a concrete two-file batch added in the same instant with
distinct random components, on top of a one-record catalog. -/
theorem addMedia_spec_witness :
    (batchIds sampleBatch).Nodup ∧
    (catalogIds (addMedia sampleBatch [sampleImage])).Nodup ∧
    ((addMedia sampleBatch [sampleImage]).take sampleBatch.length).map
        (fun m => m.uploadDate) = sampleBatch.map (fun fe => fe.2.isoDate) ∧
    (addMedia sampleBatch [sampleImage]).drop sampleBatch.length = [sampleImage] := by
  have h := addMedia_spec sampleBatch [sampleImage] "1700"
    (by decide) (by decide) (by decide) (by decide)
  exact ⟨h.1, h.2.1, h.2.2.2.1, h.2.2.2.2⟩

/-- C9 counterexample: an `updateMedia` carrying `views: 0` lowers the view
count of the record with id `"b"` from 1 to 0, so the view count of a
record is not non-decreasing under arbitrary update operations. -/
theorem views_decrease_cex :
    (findMedia "b" [sampleVideo]).map (fun m => m.views) = some 1 ∧
    (findMedia "b" (applyOps [CatalogOp.upd "b" { views := some 0 }] [sampleVideo])).map
        (fun m => m.views) = some 0 ∧
    ¬ (catalogStates [CatalogOp.upd "b" { views := some 0 }] [sampleVideo]).Chain'
        (fun s s2 => stepPreserves "b" s s2 = true) := by
  refine ⟨rfl, rfl, ?_⟩
  intro hch
  have h2 : ¬ (stepPreserves "b" [sampleVideo]
      (applyOp (CatalogOp.upd "b" { views := some 0 }) [sampleVideo]) = true) := by decide
  have h3 : List.Chain' (fun s s2 => stepPreserves "b" s s2 = true)
      [[sampleVideo], applyOp (CatalogOp.upd "b" { views := some 0 }) [sampleVideo]] := hch
  have h4 := List.chain'_pair.mp h3
  exact h2 h4

/-- C9 amended: along any operation sequence whose `add` batches carry
fresh ids and whose `upd` payloads do not set `id` or `uploadDate` and do
not lower the `views` of a matched record, every pair of consecutive
catalog states keeps the tracked record's view count non-decreasing and
its upload date unchanged whenever the record is present in both. -/
theorem views_monotone (i : String) (ops : List CatalogOp) (media : List MediaFile)
    (h : opsOk9 ops media = true) :
    (catalogStates ops media).Chain' (fun s s2 => stepPreserves i s s2 = true) := by
  induction ops generalizing media with
  | nil => simp [catalogStates]
  | cons op rest ih =>
      unfold opsOk9 at h
      rw [Bool.and_eq_true] at h
      unfold catalogStates
      rw [List.chain'_cons']
      constructor
      · intro y hy
        rw [catalogStates_head, Option.mem_def, Option.some.injEq] at hy
        subst hy
        exact opOk9_step i op media h.1
      · exact ih (applyOp op media) h.2

/-- C9 witness: a concrete increment-then-delete sequence satisfies the
step-wise monotonicity chain for the record with id `"b"`. -/
theorem views_monotone_witness :
    (catalogStates [CatalogOp.incView "b", CatalogOp.del "b"] [sampleVideo]).Chain'
      (fun s s2 => stepPreserves "b" s s2 = true) :=
  views_monotone "b" _ [sampleVideo] (by decide)

/-- C10: restoring a document that parses to the empty array passes
validation vacuously, succeeds, and replaces any current catalog with the
empty catalog. -/
theorem restore_empty_array (cur : List Json) :
    restoreData (Json.arr []) cur = ([], true) := rfl

end GuardMidia
